import Mathlib

/-!
# kubectl-operator: operator uninstall and catalog listing

Shallow embedding of

* `internal/pkg/action/operator_uninstall.go` (`UninstallOperator.Run`,
  `UninstallOperator.deleteCSVandCRDs`), and
* `internal/pkg/experimental/action/catalog_list.go` (`CatalogList.Run`).

The cluster client is an external collaborator.  It is modelled as an arbitrary
deterministic function of the calls issued so far (which subsumes every
stateful client started from a fixed cluster state).  A run threads an explicit
state: the list of client calls issued, in order, and the list of trace lines
written through `log.Printf`.  A Go `error` result is an `Option String`
(`none` is `nil`, `some text` is an error whose `Error()` is `text`).

The `%q` verb of `fmt` belongs to the Go standard library; every definition
takes it as the parameter `q : String → String`.
-/

namespace KubectlOperator

/-! ## Data model -/

/-- An error returned by the cluster client: its `Error()` text and whether
`apierrors.IsNotFound` holds of it. -/
structure ClientErr where
  text : String
  notFound : Bool
deriving DecidableEq, Repr

/-- The fields of `v1alpha1.Subscription` the uninstall reads: the object name,
`Spec.Package`, `Status.CurrentCSV` and `Status.InstalledCSV`. -/
structure Subscription where
  Name : String
  Package : String
  CurrentCSV : String
  InstalledCSV : String
deriving DecidableEq, Repr

/-- The fields of `v1alpha1.ClusterServiceVersion` the uninstall reads: the
object name and the names of `Spec.CustomResourceDefinitions.Owned`, in
declaration order. -/
structure ClusterServiceVersion where
  Name : String
  Owned : List String
deriving DecidableEq, Repr

/-- The Go zero value `v1alpha1.ClusterServiceVersion{}`. -/
def ClusterServiceVersion.zero : ClusterServiceVersion := ⟨"", []⟩

/-- The field of `v1.OperatorGroup` the uninstall reads. -/
structure OperatorGroup where
  Name : String
deriving DecidableEq, Repr

/-- The object handed to `Client.Delete`.  A resource-definition is built from
its name alone (`crd.SetName(ownedCRD.Name)`). -/
inductive Obj where
  | sub (s : Subscription)
  | crd (name : String)
  | csv (c : ClusterServiceVersion)
  | og (o : OperatorGroup)
deriving DecidableEq, Repr

/-- One call on the cluster client. -/
inductive Call where
  | listSubs (ns : String)
  | listCSVs (ns : String)
  | listOGs (ns : String)
  | get (ns : String) (name : String)
  | delete (o : Obj)
deriving DecidableEq, Repr

/-- The cluster client (`sigs.k8s.io/controller-runtime/pkg/client`).  Every
answer may depend on the calls issued before it (first argument).

`get` receives the namespace and name of the key and answers with the contents
of the receiver object after the call together with the returned error; the
receiver is `ClusterServiceVersion{}` before the call, so a client that leaves
it untouched on failure answers `(ClusterServiceVersion.zero, some err)`. -/
structure Client where
  listSubs : List Call → String → Except ClientErr (List Subscription)
  listCSVs : List Call → String → Except ClientErr (List ClusterServiceVersion)
  listOGs : List Call → String → Except ClientErr (List OperatorGroup)
  get : List Call → String → String → ClusterServiceVersion × Option ClientErr
  delete : List Call → Obj → Option ClientErr

/-- The part of `action.Configuration` the uninstall uses. -/
structure Configuration where
  Client : Client
  Namespace : String

/-- The struct `UninstallOperator`. -/
structure UninstallOperator where
  config : Configuration
  Package : String
  DeleteOperatorGroup : Bool
  DeleteCRDs : Bool

/-- State threaded through a run: the client calls issued so far and the trace
lines written so far, both oldest first. -/
structure St where
  calls : List Call
  trace : List String
deriving DecidableEq, Repr

/-- Record that a client call is being issued. -/
def St.call (st : St) (c : Call) : St := { st with calls := st.calls ++ [c] }

/-- The effect of `log.Printf`: one more trace line. -/
def St.printf (st : St) (line : String) : St := { st with trace := st.trace ++ [line] }

/-! ## `operator_uninstall.go` -/

/-- The loop of `deleteCSVandCRDs` over `ownedCRDs` (lines 104-111): delete a
resource-definition per owned name, stop at the first failure. -/
def deleteOwnedCRDs (q : String → String) (u : UninstallOperator) :
    List String → St → St × Option String
  | [], st => (st, none)
  | name :: rest, st =>
    match u.config.Client.delete st.calls (Obj.crd name) with
    | some err =>
      (st.call (Call.delete (Obj.crd name)), some ("delete crd " ++ q name ++ ": " ++ err.text))
    | none =>
      deleteOwnedCRDs q u rest
        ((st.call (Call.delete (Obj.crd name))).printf ("crd " ++ q name ++ " deleted"))

/-- The method `UninstallOperator.deleteCSVandCRDs` (lines 90-120). -/
def deleteCSVandCRDs (q : String → String) (u : UninstallOperator) (csvName : String)
    (ignoreNotFound : Bool) (st : St) : St × Option String :=
  let got := u.config.Client.get st.calls u.config.Namespace csvName
  let csv := got.1
  let st1 := st.call (Call.get u.config.Namespace csvName)
  let fatal : Option String :=
    match got.2 with
    | some err =>
      if !err.notFound || !ignoreNotFound then
        some ("get clusterserviceversion " ++ q csvName ++ ": " ++ err.text)
      else none
    | none => none
  match fatal with
  | some msg => (st1, some msg)
  | none =>
    let crds := if u.DeleteCRDs then deleteOwnedCRDs q u csv.Owned st1 else (st1, none)
    match crds.2 with
    | some msg => (crds.1, some msg)
    | none =>
      match u.config.Client.delete crds.1.calls (Obj.csv csv) with
      | some err =>
        (crds.1.call (Call.delete (Obj.csv csv)), some ("delete csv " ++ q csvName ++ ": " ++ err.text))
      | none =>
        (((crds.1.call (Call.delete (Obj.csv csv))).printf ("csv " ++ q csvName ++ " deleted")), none)

/-- The loop of `Run` over `ogs.Items` (lines 78-83). -/
def deleteOperatorGroups (q : String → String) (u : UninstallOperator) :
    List OperatorGroup → St → St × Option String
  | [], st => (st, none)
  | og :: rest, st =>
    match u.config.Client.delete st.calls (Obj.og og) with
    | some err =>
      (st.call (Call.delete (Obj.og og)),
        some ("delete operatorgroup " ++ q og.Name ++ ": " ++ err.text))
    | none =>
      deleteOperatorGroups q u rest
        ((st.call (Call.delete (Obj.og og))).printf ("operatorgroup " ++ q og.Name ++ " deleted"))

/-- Lines 38-66 of `UninstallOperator.Run`: list the subscriptions, resolve the
one of the package, delete it, then delete the version objects it names. -/
def RunVersions (q : String → String) (u : UninstallOperator) : St × Option String :=
  let st0 : St := St.call ⟨[], []⟩ (Call.listSubs u.config.Namespace)
  match u.config.Client.listSubs [] u.config.Namespace with
  | .error err => (st0, some ("list subscriptions: " ++ err.text))
  | .ok subs =>
    match subs.find? (fun s => u.Package == s.Package) with
    | none => (st0, some ("operator package " ++ q u.Package ++ " not found"))
    | some sub =>
      match u.config.Client.delete st0.calls (Obj.sub sub) with
      | some err =>
        (st0.call (Call.delete (Obj.sub sub)),
          some ("delete subscription " ++ q sub.Name ++ ": " ++ err.text))
      | none =>
        let st1 := (st0.call (Call.delete (Obj.sub sub))).printf
          ("subscription " ++ q sub.Name ++ " deleted")
        let cur :=
          if sub.CurrentCSV != sub.InstalledCSV then
            deleteCSVandCRDs q u sub.CurrentCSV true st1
          else (st1, none)
        match cur.2 with
        | some msg => (cur.1, some msg)
        | none => deleteCSVandCRDs q u sub.InstalledCSV false cur.1

/-- Lines 68-87 of `UninstallOperator.Run`: the optional group clean-up, entered
in state `st` once the version objects are deleted. -/
def RunGroups (q : String → String) (u : UninstallOperator) (st : St) : St × Option String :=
  if u.DeleteOperatorGroup then
    match u.config.Client.listCSVs st.calls u.config.Namespace with
    | .error err =>
      (st.call (Call.listCSVs u.config.Namespace),
        some ("list clusterserviceversions: " ++ err.text))
    | .ok csvs =>
      let st1 := st.call (Call.listCSVs u.config.Namespace)
      if csvs.length == 0 then
        match u.config.Client.listOGs st1.calls u.config.Namespace with
        | .error err =>
          (st1.call (Call.listOGs u.config.Namespace), some ("list operatorgroups: " ++ err.text))
        | .ok ogs => deleteOperatorGroups q u ogs (st1.call (Call.listOGs u.config.Namespace))
      else (st1, none)
  else (st, none)

/-- The method `UninstallOperator.Run` (lines 37-88): the final state (calls
issued, trace lines written) and the returned error. -/
def Run (q : String → String) (u : UninstallOperator) : St × Option String :=
  match RunVersions q u with
  | (st, some msg) => (st, some msg)
  | (st, none) => RunGroups q u st

/-! ## Classifying calls -/

/-- Whether a call is a `Delete`. -/
def Call.isDelete : Call → Bool
  | .delete _ => true
  | _ => false

/-- Whether a call is the `Delete` of a subscription. -/
def Call.isSubDelete : Call → Bool
  | .delete (.sub _) => true
  | _ => false

/-- Whether a call is the `Delete` of a resource-definition. -/
def Call.isCRDDelete : Call → Bool
  | .delete (.crd _) => true
  | _ => false

/-- Whether a call is the `Delete` of a version object. -/
def Call.isCSVDelete : Call → Bool
  | .delete (.csv _) => true
  | _ => false

/-- Whether a call is the `Delete` of a group object. -/
def Call.isOGDelete : Call → Bool
  | .delete (.og _) => true
  | _ => false

/-- Whether a call is a `Get` (always of a version object). -/
def Call.isGet : Call → Bool
  | .get _ _ => true
  | _ => false

/-- The error, if any, with which the client answers call `c` after the calls
`h`. -/
def Client.errOf (cl : Client) (h : List Call) : Call → Option ClientErr
  | .listSubs ns => match cl.listSubs h ns with
    | .error e => some e
    | .ok _ => none
  | .listCSVs ns => match cl.listCSVs h ns with
    | .error e => some e
    | .ok _ => none
  | .listOGs ns => match cl.listOGs h ns with
    | .error e => some e
    | .ok _ => none
  | .get ns name => (cl.get h ns name).2
  | .delete o => cl.delete h o

/-! ## The scenario of the specification -/

/-- The subscription of package `foo`, mid-upgrade from `foo.v1` to `foo.v2`. -/
def fooSub : Subscription := ⟨"foo", "foo", "foo.v2", "foo.v1"⟩

/-- The installed version object, owning one resource-definition. -/
def fooV1 : ClusterServiceVersion := ⟨"foo.v1", ["widgets.example.com"]⟩

/-- The only group object of the namespace. -/
def og1 : OperatorGroup := ⟨"og1"⟩

/-- The not-found error of a `Get`. -/
def notFoundErr : ClientErr := ⟨"not found", true⟩

/-- The cluster of the scenario: one subscription, `foo.v1` present, every
other version object absent (the receiver is left untouched), no version
object listed afterwards, one group object.  Every `Delete` of a named object
succeeds; `r` is the answer to a `Delete` of the unnamed version object
`ClusterServiceVersion{}`, about which the scenario says nothing. -/
def scenarioClient (r : Option ClientErr) : Client where
  listSubs _ _ := .ok [fooSub]
  listCSVs _ _ := .ok []
  listOGs _ _ := .ok [og1]
  get _ _ name :=
    if name = "foo.v1" then (fooV1, none) else (ClusterServiceVersion.zero, some notFoundErr)
  delete _ o := if o = Obj.csv ClusterServiceVersion.zero then r else none

/-- The uninstall of the scenario: package `foo`, both options set. -/
def scenario (r : Option ClientErr) : UninstallOperator :=
  { config := ⟨scenarioClient r, "operators"⟩, Package := "foo",
    DeleteOperatorGroup := true, DeleteCRDs := true }

/-! ## `catalog_list.go` -/

/-- The type `declcfg.Meta` of operator-registry: schema, package, name and the
raw blob (bytes). -/
structure DeclcfgMeta where
  Schema : String
  Package : String
  Name : String
  Blob : List Nat
deriving DecidableEq, Repr

set_option linter.dupNamespace false in
/-- The type `Meta` built by `CatalogList.Run`: a `declcfg.Meta` tagged with
the name of its catalog. -/
structure Meta where
  Meta : DeclcfgMeta
  Catalog : String
deriving DecidableEq, Repr

/-- The field of a catalog object `CatalogList.Run` reads. -/
structure Catalog where
  Name : String
deriving DecidableEq, Repr

/-- The struct `CatalogListOptions`. -/
structure CatalogListOptions where
  Catalog : String
  Schema : String
  Package : String
  Name : String
deriving DecidableEq, Repr

/-- The contents of an opened catalog stream: what the decoder yields item by
item, a meta or a read error. -/
abbrev Stream := List (Except String DeclcfgMeta)

/-- The library function `declcfg.WalkMetasReader` of operator-registry, on the
contents of a stream: decode the metas one by one and hand each to the
callback, stopping at the first error the callback returns; a decoding error is
handed to the callback and ends the walk with what the callback returns.  The
callback is a closure over mutable state `σ`. -/
def WalkMetasReader {σ : Type} (walkFn : σ → Except String DeclcfgMeta → σ × Option String) :
    Stream → σ → σ × Option String
  | [], s => (s, none)
  | .error e :: _, s => walkFn s (.error e)
  | .ok m :: rest, s =>
    match walkFn s (.ok m) with
    | (s1, some err) => (s1, some err)
    | (s1, none) => WalkMetasReader walkFn rest s1

/-- The closure passed to `WalkMetasReader` in `CatalogList.Run` (lines 76-105);
its mutable state is the slice `metas`. -/
def CatalogList.walkFn (listOpts : CatalogListOptions) (catalogName : String)
    (metas : List Meta) : Except String DeclcfgMeta → List Meta × Option String
  | .error err => (metas, some err)
  | .ok m =>
    if listOpts.Schema != "" && m.Schema != listOpts.Schema then (metas, none)
    else if listOpts.Package != "" && m.Package != listOpts.Package then (metas, none)
    else if listOpts.Name != "" && m.Name != listOpts.Name then (metas, none)
    else
      (metas ++ [{ Meta := { Schema := m.Schema, Package := m.Package, Name := m.Name,
                             Blob := m.Blob },
                   Catalog := catalogName }], none)

/-- The loop of `CatalogList.Run` over the fetched catalogs (lines 70-110).
`stream` is `StreamCatalogContents`. -/
def CatalogList.loop (q : String → String) (stream : Catalog → Except String Stream)
    (listOpts : CatalogListOptions) : List Catalog → List Meta → Option (List Meta) × Option String
  | [], metas => (some metas, none)
  | catalog :: rest, metas =>
    match stream catalog with
    | .error err =>
      (none, some ("streaming FBC for catalog " ++ q catalog.Name ++ ": " ++ err))
    | .ok rc =>
      match WalkMetasReader (CatalogList.walkFn listOpts catalog.Name) rc metas with
      | (_, some err) =>
        (none, some ("reading FBC for catalog " ++ q catalog.Name ++ ": " ++ err))
      | (metas1, none) => CatalogList.loop q stream listOpts rest metas1

/-- The method `CatalogList.Run` (lines 56-113).  `fetch` is `FetchCatalogs`
with the unpacked filter, as a function of the name filter.  The result slice
is `none` for Go's `nil` and `some l` for a non-nil slice. -/
def CatalogList.Run (q : String → String) (fetch : String → Except String (List Catalog))
    (stream : Catalog → Except String Stream) (listOpts : CatalogListOptions) :
    Option (List Meta) × Option String :=
  match fetch listOpts.Catalog with
  | .error err => (none, some ("fetching catalogs: " ++ err))
  | .ok catalogs => CatalogList.loop q stream listOpts catalogs []

/-- Whether a meta matches the options: each non-empty option equals the
corresponding field. -/
def CatalogListOptions.matches (listOpts : CatalogListOptions) (m : DeclcfgMeta) : Bool :=
  (listOpts.Schema == "" || m.Schema == listOpts.Schema) &&
  (listOpts.Package == "" || m.Package == listOpts.Package) &&
  (listOpts.Name == "" || m.Name == listOpts.Name)

/-- The metas of a stream that was read without error. -/
def Stream.metas : Stream → List DeclcfgMeta
  | [] => []
  | .ok m :: rest => m :: Stream.metas rest
  | .error _ :: rest => Stream.metas rest

/-- Whether reading a stream meets a read error. -/
def Stream.hasError : Stream → Bool
  | [] => false
  | .ok _ :: rest => Stream.hasError rest
  | .error _ :: _ => true

/-- The contents of a catalog whose stream opens, empty otherwise. -/
def contentsOf (stream : Catalog → Except String Stream) (c : Catalog) : Stream :=
  match stream c with
  | .ok rc => rc
  | .error _ => []

/-- Whether a catalog fails to stream or to read. -/
def catalogFails (stream : Catalog → Except String Stream) (c : Catalog) : Bool :=
  match stream c with
  | .ok rc => Stream.hasError rc
  | .error _ => true


/-! ## Predicates on logs of calls -/

/-- The `%q` rendering of a name made of printable characters other than the
double quote and the backslash: the name between double quotes. -/
def plainQuote (s : String) : String := "\"" ++ s ++ "\""

/-- A failure that `Run` tolerates: a not-found answer to the `Get` issued with
`ignoreNotFound = true`, which is the `Get` of `Status.CurrentCSV` of the
resolved subscription when it differs from `Status.InstalledCSV`. -/
def toleratedGet (u : UninstallOperator) (c : Call) (e : ClientErr) : Prop :=
  e.notFound = true ∧
  ∃ subs sub, u.config.Client.listSubs [] u.config.Namespace = .ok subs ∧
    subs.find? (fun s => u.Package == s.Package) = some sub ∧
    sub.CurrentCSV ≠ sub.InstalledCSV ∧
    c = Call.get u.config.Namespace sub.CurrentCSV

/-- Every failed call of the log `L` was tolerated (`tol`). -/
def Clean (cl : Client) (tol : Call → ClientErr → Prop) (L : List Call) : Prop :=
  ∀ pre c post e, L = pre ++ c :: post → cl.errOf pre c = some e → tol c e

/-- A call of the log `L` that failed without being tolerated is the last call
of `L`, and the result `r` is an error ending in the text of that failure. -/
def Aborts (cl : Client) (tol : Call → ClientErr → Prop) (L : List Call)
    (r : Option String) : Prop :=
  ∀ pre c post e, L = pre ++ c :: post → cl.errOf pre c = some e → ¬ tol c e →
    post = [] ∧ ∃ p, r = some (p ++ e.text)

/-- What a step of the run guarantees of its final log and result. -/
def Post (cl : Client) (tol : Call → ClientErr → Prop) (res : St × Option String) : Prop :=
  (res.2 = none → Clean cl tol res.1.calls) ∧ Aborts cl tol res.1.calls res.2

/-- The last call of the log `L` failed. -/
def Stopped (cl : Client) (L : List Call) : Prop :=
  ∃ pre c e, L = pre ++ [c] ∧ cl.errOf pre c = some e

/-- The step from `st` to `res` only appends calls, all of them satisfying `P`. -/
def Extends (P : Call → Prop) (st : St) (res : St × Option String) : Prop :=
  ∃ extra, res.1.calls = st.calls ++ extra ∧ ∀ c ∈ extra, P c


/-! ## Further concrete runs -/

/-- A subscription of package `foo` in steady state. -/
def steadySub : Subscription := ⟨"foo", "foo", "foo.v1", "foo.v1"⟩

/-- The uninstall of package `foo` on the cluster of the scenario, its
subscription being in steady state. -/
def steady : UninstallOperator :=
  { config := ⟨{ scenarioClient none with listSubs := fun _ _ => .ok [steadySub] }, "operators"⟩,
    Package := "foo", DeleteOperatorGroup := true, DeleteCRDs := true }

/-- A subscription of another package. -/
def barSub : Subscription := ⟨"bar", "bar", "bar.v1", "bar.v1"⟩

/-- A second subscription of package `foo`, listed after `fooSub`. -/
def fooSubLate : Subscription := ⟨"foo-late", "foo", "foo.v9", "foo.v8"⟩

/-- The uninstall of package `foo` on a cluster listing two subscriptions of
that package after one of another package. -/
def ambiguous : UninstallOperator :=
  { config := ⟨{ scenarioClient none with
      listSubs := fun _ _ => .ok [barSub, fooSub, fooSubLate] }, "operators"⟩,
    Package := "foo", DeleteOperatorGroup := false, DeleteCRDs := false }

end KubectlOperator

/-! # Proofs -/

namespace KubectlOperator

/-! ## The two delete loops -/

theorem deleteOwnedCRDs_ok (q : String → String) (u : UninstallOperator) (names : List String) :
    ∀ st : St,
    (∀ j name, names[j]? = some name →
      u.config.Client.delete (st.calls ++ (names.take j).map (fun n => Call.delete (Obj.crd n)))
        (Obj.crd name) = none) →
    deleteOwnedCRDs q u names st =
      (⟨st.calls ++ names.map (fun n => Call.delete (Obj.crd n)),
        st.trace ++ names.map (fun n => "crd " ++ q n ++ " deleted")⟩, none) := by
  induction names with
  | nil => intro st _; simp [deleteOwnedCRDs]
  | cons n rest ih =>
    intro st h
    have h0 : u.config.Client.delete st.calls (Obj.crd n) = none := by
      simpa using h 0 n (by simp)
    have hrest := ih ((st.call (Call.delete (Obj.crd n))).printf ("crd " ++ q n ++ " deleted"))
      (fun j name hj => by
        have := h (j + 1) name (by simpa using hj)
        simpa [St.call, St.printf, List.append_assoc] using this)
    simp only [deleteOwnedCRDs, h0, hrest]
    simp [St.call, St.printf, List.append_assoc]

theorem deleteOwnedCRDs_fail (q : String → String) (u : UninstallOperator) (names : List String) :
    ∀ (st : St) (i : Nat) (name : String) (e : ClientErr),
    names[i]? = some name →
    (∀ j nm, j < i → names[j]? = some nm →
      u.config.Client.delete (st.calls ++ (names.take j).map (fun n => Call.delete (Obj.crd n)))
        (Obj.crd nm) = none) →
    u.config.Client.delete (st.calls ++ (names.take i).map (fun n => Call.delete (Obj.crd n)))
        (Obj.crd name) = some e →
    deleteOwnedCRDs q u names st =
      (⟨st.calls ++ (names.take (i + 1)).map (fun n => Call.delete (Obj.crd n)),
        st.trace ++ (names.take i).map (fun n => "crd " ++ q n ++ " deleted")⟩,
       some ("delete crd " ++ q name ++ ": " ++ e.text)) := by
  induction names with
  | nil => intro st i name e hi; simp at hi
  | cons n rest ih =>
    intro st i name e hi hok hfail
    cases i with
    | zero =>
      have hn : n = name := by simpa using hi
      subst hn
      have h0 : u.config.Client.delete st.calls (Obj.crd n) = some e := by simpa using hfail
      simp [deleteOwnedCRDs, h0, St.call]
    | succ i =>
      have h0 : u.config.Client.delete st.calls (Obj.crd n) = none := by
        simpa using hok 0 n (Nat.succ_pos i) (by simp)
      have hrest := ih ((st.call (Call.delete (Obj.crd n))).printf ("crd " ++ q n ++ " deleted"))
        i name e (by simpa using hi)
        (fun j nm hj hnm => by
          have := hok (j + 1) nm (Nat.succ_lt_succ hj) (by simpa using hnm)
          simpa [St.call, St.printf, List.append_assoc] using this)
        (by simpa [St.call, St.printf, List.append_assoc] using hfail)
      simp only [deleteOwnedCRDs, h0, hrest]
      simp [St.call, St.printf, List.append_assoc]


/-! ## Catalog listing -/

theorem walkFn_ok (listOpts : CatalogListOptions) (name : String) (metas : List Meta)
    (m : DeclcfgMeta) :
    CatalogList.walkFn listOpts name metas (.ok m) =
      (metas ++ (if listOpts.matches m then [⟨m, name⟩] else []), none) := by
  obtain ⟨sc, pk, nm, bl⟩ := m
  obtain ⟨oc, os, op, onm⟩ := listOpts
  simp only [CatalogList.walkFn, CatalogListOptions.matches]
  by_cases h1 : os = "" <;> by_cases h2 : sc = os <;>
    by_cases h3 : op = "" <;> by_cases h4 : pk = op <;>
    by_cases h5 : onm = "" <;> by_cases h6 : nm = onm <;>
    simp [h1, h2, h3, h4, h5, h6]

theorem walk_clean (listOpts : CatalogListOptions) (name : String) (rc : Stream) :
    ∀ metas : List Meta, Stream.hasError rc = false →
    WalkMetasReader (CatalogList.walkFn listOpts name) rc metas =
      (metas ++ ((Stream.metas rc).filter listOpts.matches).map (fun m => ⟨m, name⟩), none) := by
  induction rc with
  | nil => intro metas _; simp [WalkMetasReader, Stream.metas]
  | cons item rest ih =>
    intro metas h
    cases item with
    | error e => simp [Stream.hasError] at h
    | ok m =>
      have hr : Stream.hasError rest = false := by simpa [Stream.hasError] using h
      simp only [WalkMetasReader, walkFn_ok, ih _ hr, Stream.metas]
      by_cases hm : listOpts.matches m <;> simp [hm, List.filter_cons]

theorem walk_error (listOpts : CatalogListOptions) (name : String) (rc : Stream) :
    ∀ metas : List Meta, Stream.hasError rc = true →
    ∃ s e, WalkMetasReader (CatalogList.walkFn listOpts name) rc metas = (s, some e) := by
  induction rc with
  | nil => intro metas h; simp [Stream.hasError] at h
  | cons item rest ih =>
    intro metas h
    cases item with
    | error e => exact ⟨metas, e, by simp [WalkMetasReader, CatalogList.walkFn]⟩
    | ok m =>
      have hr : Stream.hasError rest = true := by simpa [Stream.hasError] using h
      simp only [WalkMetasReader, walkFn_ok]
      exact ih _ hr

theorem loop_clean (q : String → String) (stream : Catalog → Except String Stream)
    (listOpts : CatalogListOptions) (cats : List Catalog) :
    ∀ metas : List Meta, (∀ c ∈ cats, catalogFails stream c = false) →
    CatalogList.loop q stream listOpts cats metas =
      (some (metas ++ cats.flatMap (fun c =>
        ((Stream.metas (contentsOf stream c)).filter listOpts.matches).map
          (fun m => ⟨m, c.Name⟩))), none) := by
  induction cats with
  | nil => intro metas _; simp [CatalogList.loop]
  | cons c rest ih =>
    intro metas h
    have hc := h c (List.mem_cons_self _ _)
    have hrest := fun ms => ih ms (fun c1 h1 => h c1 (List.mem_cons_of_mem _ h1))
    unfold catalogFails at hc
    unfold CatalogList.loop
    cases hs : stream c with
    | error e => simp [hs] at hc
    | ok rc =>
      simp only [hs] at hc
      simp [walk_clean listOpts c.Name rc metas hc, hrest, contentsOf, hs, List.append_assoc]

theorem loop_error (q : String → String) (stream : Catalog → Except String Stream)
    (listOpts : CatalogListOptions) (cats : List Catalog) :
    ∀ metas : List Meta, (∃ c ∈ cats, catalogFails stream c = true) →
    ∃ msg, CatalogList.loop q stream listOpts cats metas = (none, some msg) := by
  induction cats with
  | nil => intro metas h; simp at h
  | cons c rest ih =>
    intro metas h
    cases hs : stream c with
    | error e =>
      exact ⟨"streaming FBC for catalog " ++ q c.Name ++ ": " ++ e, by simp [CatalogList.loop, hs]⟩
    | ok rc =>
      cases hw : WalkMetasReader (CatalogList.walkFn listOpts c.Name) rc metas with
      | mk s r =>
        cases r with
        | some e =>
          exact ⟨"reading FBC for catalog " ++ q c.Name ++ ": " ++ e,
            by simp [CatalogList.loop, hs, hw]⟩
        | none =>
          have hne : Stream.hasError rc = false := by
            cases hh : Stream.hasError rc with
            | false => rfl
            | true =>
              obtain ⟨s1, e1, h1⟩ := walk_error listOpts c.Name rc metas hh
              rw [hw] at h1
              simp at h1
          have hcf : catalogFails stream c = false := by simp [catalogFails, hs, hne]
          obtain ⟨c1, hc1, hf1⟩ := h
          rcases List.mem_cons.mp hc1 with rfl | hin
          · rw [hcf] at hf1; exact absurd hf1 (by decide)
          · obtain ⟨msg, hmsg⟩ := ih s ⟨c1, hin, hf1⟩
            exact ⟨msg, by simp [CatalogList.loop, hs, hw, hmsg]⟩

/-- C10: `CatalogList.Run` returns exactly the catalog objects that match the options.
If fetching fails the result is `nil` with the wrapped error; if some fetched catalog
fails to stream or to read, the result is `nil` with an error; otherwise the result is
the non-nil list, in catalog order and then stream order, of the metas matching every
non-empty option, each kept unchanged and tagged with its catalog name (the empty
non-nil list when nothing matches). -/
theorem CatalogList_Run_spec (q : String → String) (fetch : String → Except String (List Catalog))
    (stream : Catalog → Except String Stream) (listOpts : CatalogListOptions) :
    (∀ e, fetch listOpts.Catalog = .error e →
      CatalogList.Run q fetch stream listOpts = (none, some ("fetching catalogs: " ++ e))) ∧
    (∀ cats, fetch listOpts.Catalog = .ok cats → (∃ c ∈ cats, catalogFails stream c = true) →
      ∃ msg, CatalogList.Run q fetch stream listOpts = (none, some msg)) ∧
    (∀ cats, fetch listOpts.Catalog = .ok cats → (∀ c ∈ cats, catalogFails stream c = false) →
      CatalogList.Run q fetch stream listOpts =
        (some (cats.flatMap (fun c =>
          ((Stream.metas (contentsOf stream c)).filter listOpts.matches).map
            (fun m => ⟨m, c.Name⟩))), none)) ∧
    (∀ m, listOpts.matches m = true ↔
      ((listOpts.Schema = "" ∨ m.Schema = listOpts.Schema) ∧
       (listOpts.Package = "" ∨ m.Package = listOpts.Package) ∧
       (listOpts.Name = "" ∨ m.Name = listOpts.Name))) := by
  refine ⟨?_, ?_, ?_, ?_⟩
  · intro e he
    simp [CatalogList.Run, he]
  · intro cats hc hex
    simp only [CatalogList.Run, hc]
    exact loop_error q stream listOpts cats [] hex
  · intro cats hc hall
    simp only [CatalogList.Run, hc]
    simpa using loop_clean q stream listOpts cats [] hall
  · intro m
    simp [CatalogListOptions.matches, and_assoc]


/-! ## Logs: basic facts -/

theorem snoc_split {α : Type} (L pre post : List α) (c c1 : α)
    (h : L ++ [c] = pre ++ c1 :: post) :
    (post = [] ∧ pre = L ∧ c1 = c) ∨ ∃ post1, post = post1 ++ [c] ∧ L = pre ++ c1 :: post1 := by
  rcases List.eq_nil_or_concat post with hp | ⟨post1, x, hp⟩
  · subst hp
    have := List.append_inj' h rfl
    simp at this
    exact Or.inl ⟨rfl, this.1.symm, this.2.symm⟩
  · subst hp
    have h2 : L ++ [c] = (pre ++ c1 :: post1) ++ [x] := by simpa using h
    have := List.append_inj' h2 rfl
    simp at this
    exact Or.inr ⟨post1, by simp [this.2], this.1⟩

theorem clean_nil (cl : Client) (tol : Call → ClientErr → Prop) : Clean cl tol [] := by
  intro pre c post e h
  simp at h

theorem clean_snoc {cl : Client} {tol : Call → ClientErr → Prop} {L : List Call} {c : Call}
    (hL : Clean cl tol L) (hc : ∀ e, cl.errOf L c = some e → tol c e) :
    Clean cl tol (L ++ [c]) := by
  intro pre c1 post e h he
  rcases snoc_split L pre post c c1 h with ⟨_, hpre, hc1⟩ | ⟨post1, _, hL1⟩
  · subst hpre; subst hc1; exact hc e he
  · exact hL pre c1 post1 e hL1 he

theorem aborts_snoc {cl : Client} {tol : Call → ClientErr → Prop} {L : List Call} {c : Call}
    {e : ClientErr} (p : String) (hL : Clean cl tol L) (hc : cl.errOf L c = some e) :
    Aborts cl tol (L ++ [c]) (some (p ++ e.text)) := by
  intro pre c1 post e1 h he hnt
  rcases snoc_split L pre post c c1 h with ⟨hpost, hpre, hc1⟩ | ⟨post1, _, hL1⟩
  · subst hpre; subst hc1
    rw [hc] at he
    cases he
    exact ⟨hpost, p, rfl⟩
  · exact absurd (hL pre c1 post1 e1 hL1 he) hnt

theorem aborts_of_clean {cl : Client} {tol : Call → ClientErr → Prop} {L : List Call}
    (r : Option String) (hL : Clean cl tol L) : Aborts cl tol L r := by
  intro pre c post e h he hnt
  exact absurd (hL pre c post e h he) hnt

theorem post_of_clean {cl : Client} {tol : Call → ClientErr → Prop} {st : St}
    (hL : Clean cl tol st.calls) : Post cl tol (st, none) :=
  ⟨fun _ => hL, aborts_of_clean none hL⟩

theorem post_fail {cl : Client} {tol : Call → ClientErr → Prop} {st : St} {c : Call}
    {e : ClientErr} (p : String) (hL : Clean cl tol st.calls) (hc : cl.errOf st.calls c = some e) :
    Post cl tol (st.call c, some (p ++ e.text)) :=
  ⟨fun h => by simp at h, aborts_snoc p hL hc⟩

theorem extends_refl (P : Call → Prop) (st : St) (r : Option String) : Extends P st (st, r) :=
  ⟨[], by simp, by simp⟩

theorem extends_call {P : Call → Prop} (st : St) (c : Call) (r : Option String) (hc : P c) :
    Extends P st (st.call c, r) :=
  ⟨[c], rfl, by simpa using hc⟩

theorem extends_call_printf {P : Call → Prop} (st : St) (c : Call) (line : String)
    (r : Option String) (hc : P c) : Extends P st ((st.call c).printf line, r) :=
  ⟨[c], rfl, by simpa using hc⟩

theorem extends_trans {P : Call → Prop} {st st1 : St} {r1 : Option String}
    {res : St × Option String} (h1 : Extends P st (st1, r1)) (h2 : Extends P st1 res) :
    Extends P st res := by
  obtain ⟨x1, hx1, hp1⟩ := h1
  obtain ⟨x2, hx2, hp2⟩ := h2
  refine ⟨x1 ++ x2, ?_, ?_⟩
  · rw [hx2]; simp only at hx1; rw [hx1, List.append_assoc]
  · intro c hc
    rcases List.mem_append.mp hc with h | h
    · exact hp1 c h
    · exact hp2 c h

theorem extends_mono {P Q : Call → Prop} {st : St} {res : St × Option String}
    (hPQ : ∀ c, P c → Q c) (h : Extends P st res) : Extends Q st res := by
  obtain ⟨x, hx, hp⟩ := h
  exact ⟨x, hx, fun c hc => hPQ c (hp c hc)⟩

/-! ## The loop over the owned resource-definitions -/

theorem deleteOwnedCRDs_post (q : String → String) (u : UninstallOperator)
    (tol : Call → ClientErr → Prop) (names : List String) :
    ∀ st : St, Clean u.config.Client tol st.calls →
      Post u.config.Client tol (deleteOwnedCRDs q u names st) := by
  induction names with
  | nil => intro st h; exact post_of_clean h
  | cons n rest ih =>
    intro st h
    cases h0 : u.config.Client.delete st.calls (Obj.crd n) with
    | some err =>
      simp only [deleteOwnedCRDs, h0]
      exact post_fail _ h (by simpa [Client.errOf] using h0)
    | none =>
      simp only [deleteOwnedCRDs, h0]
      apply ih
      exact clean_snoc h (fun e he => by simp [Client.errOf, h0] at he)

theorem deleteOwnedCRDs_stopped (q : String → String) (u : UninstallOperator)
    (names : List String) :
    ∀ (st : St) (msg : String), (deleteOwnedCRDs q u names st).2 = some msg →
      Stopped u.config.Client (deleteOwnedCRDs q u names st).1.calls := by
  induction names with
  | nil => intro st msg h; simp [deleteOwnedCRDs] at h
  | cons n rest ih =>
    intro st msg h
    cases h0 : u.config.Client.delete st.calls (Obj.crd n) with
    | some err =>
      simp only [deleteOwnedCRDs, h0]
      exact ⟨st.calls, _, err, rfl, by simpa [Client.errOf] using h0⟩
    | none =>
      simp only [deleteOwnedCRDs, h0] at h ⊢
      exact ih _ msg h

theorem deleteOwnedCRDs_extends (q : String → String) (u : UninstallOperator)
    (names : List String) :
    ∀ st : St, Extends (fun c => c.isCRDDelete = true) st (deleteOwnedCRDs q u names st) := by
  induction names with
  | nil => intro st; exact extends_refl _ st none
  | cons n rest ih =>
    intro st
    cases h0 : u.config.Client.delete st.calls (Obj.crd n) with
    | some err =>
      simp only [deleteOwnedCRDs, h0]
      exact extends_call st (Call.delete (Obj.crd n)) _ rfl
    | none =>
      simp only [deleteOwnedCRDs, h0]
      exact extends_trans
        (extends_call_printf st (Call.delete (Obj.crd n)) _ none rfl) (ih _)

/-! ## The loop over the group objects -/

theorem deleteOperatorGroups_ok (q : String → String) (u : UninstallOperator)
    (ogs : List OperatorGroup) :
    ∀ st : St,
    (∀ j og, ogs[j]? = some og →
      u.config.Client.delete (st.calls ++ (ogs.take j).map (fun o => Call.delete (Obj.og o)))
        (Obj.og og) = none) →
    deleteOperatorGroups q u ogs st =
      (⟨st.calls ++ ogs.map (fun o => Call.delete (Obj.og o)),
        st.trace ++ ogs.map (fun o => "operatorgroup " ++ q o.Name ++ " deleted")⟩, none) := by
  induction ogs with
  | nil => intro st _; simp [deleteOperatorGroups]
  | cons n rest ih =>
    intro st h
    have h0 : u.config.Client.delete st.calls (Obj.og n) = none := by
      simpa using h 0 n (by simp)
    have hrest := ih
      ((st.call (Call.delete (Obj.og n))).printf ("operatorgroup " ++ q n.Name ++ " deleted"))
      (fun j og hj => by
        have := h (j + 1) og (by simpa using hj)
        simpa [St.call, St.printf, List.append_assoc] using this)
    simp only [deleteOperatorGroups, h0, hrest]
    simp [St.call, St.printf, List.append_assoc]

theorem deleteOperatorGroups_post (q : String → String) (u : UninstallOperator)
    (tol : Call → ClientErr → Prop) (ogs : List OperatorGroup) :
    ∀ st : St, Clean u.config.Client tol st.calls →
      Post u.config.Client tol (deleteOperatorGroups q u ogs st) := by
  induction ogs with
  | nil => intro st h; exact post_of_clean h
  | cons n rest ih =>
    intro st h
    cases h0 : u.config.Client.delete st.calls (Obj.og n) with
    | some err =>
      simp only [deleteOperatorGroups, h0]
      exact post_fail _ h (by simpa [Client.errOf] using h0)
    | none =>
      simp only [deleteOperatorGroups, h0]
      apply ih
      exact clean_snoc h (fun e he => by simp [Client.errOf, h0] at he)

theorem deleteOperatorGroups_extends (q : String → String) (u : UninstallOperator)
    (ogs : List OperatorGroup) :
    ∀ st : St, Extends (fun c => c.isOGDelete = true) st (deleteOperatorGroups q u ogs st) := by
  induction ogs with
  | nil => intro st; exact extends_refl _ st none
  | cons n rest ih =>
    intro st
    cases h0 : u.config.Client.delete st.calls (Obj.og n) with
    | some err =>
      simp only [deleteOperatorGroups, h0]
      exact extends_call st (Call.delete (Obj.og n)) _ rfl
    | none =>
      simp only [deleteOperatorGroups, h0]
      exact extends_trans
        (extends_call_printf st (Call.delete (Obj.og n)) _ none rfl) (ih _)

/-! ## `deleteCSVandCRDs` -/

theorem deleteCSVandCRDs_post (q : String → String) (u : UninstallOperator)
    (tol : Call → ClientErr → Prop) (csvName : String) (ignoreNotFound : Bool) (st : St)
    (hst : Clean u.config.Client tol st.calls)
    (htol : ignoreNotFound = true → ∀ e, e.notFound = true →
      tol (Call.get u.config.Namespace csvName) e) :
    Post u.config.Client tol (deleteCSVandCRDs q u csvName ignoreNotFound st) := by
  unfold deleteCSVandCRDs
  simp only
  split
  · -- the Get failed fatally
    rename_i msg hfatal
    split at hfatal
    · rename_i err herr
      split at hfatal
      · cases hfatal
        exact post_fail _ hst (by simpa [Client.errOf] using herr)
      · cases hfatal
    · cases hfatal
  · -- the Get succeeded or its failure is tolerated
    rename_i hfatal
    have hst1 : Clean u.config.Client tol (st.call (Call.get u.config.Namespace csvName)).calls := by
      apply clean_snoc hst
      intro e he
      have he2 : (u.config.Client.get st.calls u.config.Namespace csvName).2 = some e := by
        simpa [Client.errOf] using he
      rw [he2] at hfatal
      simp only at hfatal
      split at hfatal
      · cases hfatal
      · rename_i hcond
        have hnf : e.notFound = true ∧ ignoreNotFound = true := by
          simpa using hcond
        exact htol hnf.2 e hnf.1
    have hcrds : Post u.config.Client tol
        (if u.DeleteCRDs = true then
          deleteOwnedCRDs q u (u.config.Client.get st.calls u.config.Namespace csvName).1.Owned
            (st.call (Call.get u.config.Namespace csvName))
        else (st.call (Call.get u.config.Namespace csvName), none)) := by
      split
      · exact deleteOwnedCRDs_post q u tol _ _ hst1
      · exact post_of_clean hst1
    split
    · rename_i msg hmsg
      have := hcrds.2
      rw [hmsg] at this
      exact ⟨fun h => by simp at h, this⟩
    · rename_i hnone
      have hclean := hcrds.1 hnone
      split
      · rename_i err herr
        exact post_fail _ hclean (by simpa [Client.errOf] using herr)
      · rename_i herr
        exact post_of_clean
          (clean_snoc hclean (fun e he => by simp [Client.errOf, herr] at he))

theorem deleteCSVandCRDs_shape (q : String → String) (u : UninstallOperator)
    (csvName : String) (ignoreNotFound : Bool) (st : St) :
    ∃ crds tail,
      (deleteCSVandCRDs q u csvName ignoreNotFound st).1.calls =
        st.calls ++ Call.get u.config.Namespace csvName :: (crds ++ tail) ∧
      (∀ c ∈ crds, c.isCRDDelete = true) ∧
      (u.DeleteCRDs = false → crds = []) ∧
      (tail = [] ∨ tail =
        [Call.delete (Obj.csv (u.config.Client.get st.calls u.config.Namespace csvName).1)]) ∧
      ((deleteCSVandCRDs q u csvName ignoreNotFound st).2 = none → tail =
        [Call.delete (Obj.csv (u.config.Client.get st.calls u.config.Namespace csvName).1)]) := by
  have hext : ∃ extra,
      (if u.DeleteCRDs = true then
          deleteOwnedCRDs q u (u.config.Client.get st.calls u.config.Namespace csvName).1.Owned
            (st.call (Call.get u.config.Namespace csvName))
        else (st.call (Call.get u.config.Namespace csvName), none)).1.calls =
        st.calls ++ Call.get u.config.Namespace csvName :: extra ∧
      (∀ c ∈ extra, c.isCRDDelete = true) ∧ (u.DeleteCRDs = false → extra = []) := by
    split
    · rename_i hflag
      obtain ⟨extra, hx, hp⟩ := deleteOwnedCRDs_extends q u
        (u.config.Client.get st.calls u.config.Namespace csvName).1.Owned
        (st.call (Call.get u.config.Namespace csvName))
      exact ⟨extra, by rw [hx]; simp [St.call], hp, fun h => by simp [hflag] at h⟩
    · exact ⟨[], by simp [St.call], by simp, fun _ => rfl⟩
  obtain ⟨extra, hx, hp, hoff⟩ := hext
  unfold deleteCSVandCRDs
  simp only
  split
  · exact ⟨[], [], by simp [St.call], by simp, fun _ => rfl, Or.inl rfl, fun h => by simp at h⟩
  · split
    · exact ⟨extra, [], by simpa using hx, hp, hoff, Or.inl rfl, fun h => by simp at h⟩
    · split
      · exact ⟨extra, _, by show _ ++ [_] = _; rw [hx]; simp, hp, hoff, Or.inr rfl,
          fun h => by simp at h⟩
      · exact ⟨extra, _, by show _ ++ [_] = _; rw [hx]; simp, hp, hoff, Or.inr rfl, fun _ => rfl⟩

theorem deleteCSVandCRDs_stopped (q : String → String) (u : UninstallOperator)
    (csvName : String) (ignoreNotFound : Bool) (st : St) (msg : String)
    (h : (deleteCSVandCRDs q u csvName ignoreNotFound st).2 = some msg) :
    Stopped u.config.Client (deleteCSVandCRDs q u csvName ignoreNotFound st).1.calls := by
  unfold deleteCSVandCRDs at h ⊢
  simp only at h ⊢
  split
  · rename_i m hfatal
    split at hfatal
    · rename_i err herr
      exact ⟨st.calls, _, err, rfl, by simpa [Client.errOf] using herr⟩
    · cases hfatal
  · rename_i hfatal
    simp only [hfatal] at h
    split
    · rename_i m hm
      by_cases hflag : u.DeleteCRDs = true
      · simp only [hflag, if_true] at hm ⊢
        exact deleteOwnedCRDs_stopped q u _ _ m hm
      · simp [hflag] at hm
    · rename_i hnone
      simp only [hnone] at h
      split
      · rename_i err herr
        exact ⟨_, _, err, rfl, by simpa [Client.errOf] using herr⟩
      · rename_i herr
        simp [herr] at h

theorem deleteCSVandCRDs_strict (q : String → String) (u : UninstallOperator)
    (csvName : String) (st : St) (e : ClientErr)
    (h : (u.config.Client.get st.calls u.config.Namespace csvName).2 = some e) :
    deleteCSVandCRDs q u csvName false st =
      (st.call (Call.get u.config.Namespace csvName),
        some ("get clusterserviceversion " ++ q csvName ++ ": " ++ e.text)) := by
  simp [deleteCSVandCRDs, h]


/-! ## The group clean-up -/

theorem RunGroups_post (q : String → String) (u : UninstallOperator)
    (tol : Call → ClientErr → Prop) (st : St) (hst : Clean u.config.Client tol st.calls) :
    Post u.config.Client tol (RunGroups q u st) := by
  unfold RunGroups
  split
  · split
    · rename_i err herr
      exact post_fail _ hst (by simp [Client.errOf, herr])
    · rename_i csvs hcsvs
      have h1 : Clean u.config.Client tol (st.call (Call.listCSVs u.config.Namespace)).calls :=
        clean_snoc hst (fun e he => by simp [Client.errOf, hcsvs] at he)
      simp only
      split
      · split
        · rename_i err herr
          exact post_fail _ h1 (by simp [Client.errOf, herr])
        · rename_i ogs hogs
          apply deleteOperatorGroups_post
          exact clean_snoc h1 (fun e he => by simp [Client.errOf, hogs] at he)
      · exact post_of_clean h1
  · exact post_of_clean hst

theorem RunGroups_extends (q : String → String) (u : UninstallOperator) (st : St) :
    Extends (fun c => c.isSubDelete = false ∧ c.isGet = false ∧ c.isCRDDelete = false ∧
      c.isCSVDelete = false) st (RunGroups q u st) := by
  unfold RunGroups
  split
  · split
    · exact extends_call st _ _ (by simp [Call.isSubDelete, Call.isGet, Call.isCRDDelete,
        Call.isCSVDelete])
    · simp only
      have h1 : ∀ r, Extends (fun c => c.isSubDelete = false ∧ c.isGet = false ∧
          c.isCRDDelete = false ∧ c.isCSVDelete = false) st
          (st.call (Call.listCSVs u.config.Namespace), r) := fun r =>
        extends_call st _ r (by simp [Call.isSubDelete, Call.isGet, Call.isCRDDelete,
          Call.isCSVDelete])
      split
      · have h2 : ∀ r, Extends (fun c => c.isSubDelete = false ∧ c.isGet = false ∧
            c.isCRDDelete = false ∧ c.isCSVDelete = false) st
            ((st.call (Call.listCSVs u.config.Namespace)).call
              (Call.listOGs u.config.Namespace), r) := fun r =>
          extends_trans (h1 none) (extends_call _ _ r (by simp [Call.isSubDelete, Call.isGet,
            Call.isCRDDelete, Call.isCSVDelete]))
        split
        · exact h2 _
        · refine extends_trans (h2 none) (extends_mono ?_ (deleteOperatorGroups_extends q u _ _))
          intro c hc
          cases c with
          | delete o => cases o <;> simp_all [Call.isOGDelete, Call.isSubDelete, Call.isGet,
              Call.isCRDDelete, Call.isCSVDelete]
          | _ => simp [Call.isOGDelete] at hc
      · exact h1 _
  · exact extends_refl _ st none

/-! ## The version phase -/

theorem deleteCSVandCRDs_extends (q : String → String) (u : UninstallOperator)
    (csvName : String) (ignoreNotFound : Bool) (st : St) :
    Extends (fun c => c.isSubDelete = false ∧ c.isOGDelete = false ∧
        (∀ ns n, c = Call.get ns n → n = csvName) ∧
        (u.DeleteCRDs = false → c.isCRDDelete = false))
      st (deleteCSVandCRDs q u csvName ignoreNotFound st) := by
  obtain ⟨crds, tail, hcalls, hcrds, hoff, htail, _⟩ :=
    deleteCSVandCRDs_shape q u csvName ignoreNotFound st
  refine ⟨_, hcalls, ?_⟩
  intro c hc
  rcases List.mem_cons.mp hc with rfl | hc
  · refine ⟨rfl, rfl, ?_, fun _ => rfl⟩
    intro ns n h
    cases h
    rfl
  · rcases List.mem_append.mp hc with hc | hc
    · have h1 := hcrds c hc
      refine ⟨?_, ?_, ?_, ?_⟩
      · cases c with
        | delete o => cases o <;> simp_all [Call.isCRDDelete, Call.isSubDelete]
        | _ => simp [Call.isCRDDelete] at h1
      · cases c with
        | delete o => cases o <;> simp_all [Call.isCRDDelete, Call.isOGDelete]
        | _ => simp [Call.isCRDDelete] at h1
      · intro ns n h
        subst h
        simp [Call.isCRDDelete] at h1
      · intro hflag
        rw [hoff hflag] at hc
        simp at hc
    · rcases htail with ht | ht
      · rw [ht] at hc; simp at hc
      · rw [ht] at hc
        rw [List.mem_singleton] at hc
        subst hc
        exact ⟨rfl, rfl, fun ns n h => (by cases h), fun _ => rfl⟩


theorem RunVersions_post (q : String → String) (u : UninstallOperator) :
    Post u.config.Client (toleratedGet u) (RunVersions q u) := by
  have hnil : Clean u.config.Client (toleratedGet u) (St.mk [] []).calls := clean_nil _ _
  unfold RunVersions
  simp only
  split
  · rename_i err herr
    exact post_fail _ hnil (by simp [Client.errOf, herr])
  · rename_i subs hsubs
    have h0 : Clean u.config.Client (toleratedGet u)
        (St.call ⟨[], []⟩ (Call.listSubs u.config.Namespace)).calls :=
      clean_snoc hnil (fun e he => by simp [Client.errOf, hsubs] at he)
    split
    · exact ⟨fun h => by simp at h, aborts_of_clean _ h0⟩
    · rename_i sub hsub
      split
      · rename_i err herr
        exact post_fail _ h0 (by simpa [Client.errOf] using herr)
      · rename_i hdel
        have h1 : Clean u.config.Client (toleratedGet u)
            ((St.call (St.call ⟨[], []⟩ (Call.listSubs u.config.Namespace))
              (Call.delete (Obj.sub sub))).printf
                ("subscription " ++ q sub.Name ++ " deleted")).calls :=
          clean_snoc h0 (fun e he => by
            have : u.config.Client.delete [Call.listSubs u.config.Namespace] (Obj.sub sub) =
                some e := by simpa [Client.errOf, St.call] using he
            simp [St.call] at hdel
            rw [hdel] at this
            cases this)
        have hcur : Post u.config.Client (toleratedGet u)
            (if (sub.CurrentCSV != sub.InstalledCSV) = true then
              deleteCSVandCRDs q u sub.CurrentCSV true
                ((St.call (St.call ⟨[], []⟩ (Call.listSubs u.config.Namespace))
                  (Call.delete (Obj.sub sub))).printf
                    ("subscription " ++ q sub.Name ++ " deleted"))
            else
              ((St.call (St.call ⟨[], []⟩ (Call.listSubs u.config.Namespace))
                  (Call.delete (Obj.sub sub))).printf
                    ("subscription " ++ q sub.Name ++ " deleted"), none)) := by
          split
          · rename_i hne
            apply deleteCSVandCRDs_post q u _ _ _ _ h1
            intro _ e he
            exact ⟨he, subs, sub, hsubs, hsub, by simpa using hne, rfl⟩
          · exact post_of_clean h1
        split
        · rename_i msg hmsg
          have := hcur.2
          rw [hmsg] at this
          exact ⟨fun h => by simp at h, this⟩
        · rename_i hnone
          exact deleteCSVandCRDs_post q u _ _ _ _ (hcur.1 hnone) (fun h => by simp at h)

theorem RunVersions_resolved_shape (q : String → String) (u : UninstallOperator)
    (subs : List Subscription) (sub : Subscription)
    (hlist : u.config.Client.listSubs [] u.config.Namespace = .ok subs)
    (hfind : subs.find? (fun s => u.Package == s.Package) = some sub) :
    ∃ extra, (RunVersions q u).1.calls =
        Call.listSubs u.config.Namespace :: Call.delete (Obj.sub sub) :: extra ∧
      ∀ c ∈ extra, c.isSubDelete = false ∧ c.isOGDelete = false ∧
        (∀ ns n, c = Call.get ns n → n = sub.CurrentCSV ∨ n = sub.InstalledCSV) ∧
        (u.DeleteCRDs = false → c.isCRDDelete = false) := by
  have key : ∀ st : St, st.calls = [Call.listSubs u.config.Namespace, Call.delete (Obj.sub sub)] →
      ∀ res, Extends (fun c => c.isSubDelete = false ∧ c.isOGDelete = false ∧
        (∀ ns n, c = Call.get ns n → n = sub.CurrentCSV ∨ n = sub.InstalledCSV) ∧
        (u.DeleteCRDs = false → c.isCRDDelete = false)) st res →
      ∃ extra, res.1.calls =
        Call.listSubs u.config.Namespace :: Call.delete (Obj.sub sub) :: extra ∧
      ∀ c ∈ extra, c.isSubDelete = false ∧ c.isOGDelete = false ∧
        (∀ ns n, c = Call.get ns n → n = sub.CurrentCSV ∨ n = sub.InstalledCSV) ∧
        (u.DeleteCRDs = false → c.isCRDDelete = false) := by
    intro st hst res ⟨extra, hx, hp⟩
    exact ⟨extra, by rw [hx, hst]; rfl, hp⟩
  have hcurE : ∀ st, Extends (fun c => c.isSubDelete = false ∧ c.isOGDelete = false ∧
        (∀ ns n, c = Call.get ns n → n = sub.CurrentCSV ∨ n = sub.InstalledCSV) ∧
        (u.DeleteCRDs = false → c.isCRDDelete = false)) st
        (deleteCSVandCRDs q u sub.CurrentCSV true st) := fun st =>
    extends_mono (fun c hc => ⟨hc.1, hc.2.1, fun ns n h => Or.inl (hc.2.2.1 ns n h), hc.2.2.2⟩)
      (deleteCSVandCRDs_extends q u sub.CurrentCSV true st)
  have hinsE : ∀ st, Extends (fun c => c.isSubDelete = false ∧ c.isOGDelete = false ∧
        (∀ ns n, c = Call.get ns n → n = sub.CurrentCSV ∨ n = sub.InstalledCSV) ∧
        (u.DeleteCRDs = false → c.isCRDDelete = false)) st
        (deleteCSVandCRDs q u sub.InstalledCSV false st) := fun st =>
    extends_mono (fun c hc => ⟨hc.1, hc.2.1, fun ns n h => Or.inr (hc.2.2.1 ns n h), hc.2.2.2⟩)
      (deleteCSVandCRDs_extends q u sub.InstalledCSV false st)
  simp only [RunVersions, hlist, hfind]
  split
  · exact ⟨[], rfl, by simp⟩
  · apply key ((St.call (St.call ⟨[], []⟩ (Call.listSubs u.config.Namespace))
        (Call.delete (Obj.sub sub))).printf ("subscription " ++ q sub.Name ++ " deleted")) rfl
    have hcur : ∀ st, Extends (fun c => c.isSubDelete = false ∧ c.isOGDelete = false ∧
        (∀ ns n, c = Call.get ns n → n = sub.CurrentCSV ∨ n = sub.InstalledCSV) ∧
        (u.DeleteCRDs = false → c.isCRDDelete = false)) st
        (if (sub.CurrentCSV != sub.InstalledCSV) = true then
          deleteCSVandCRDs q u sub.CurrentCSV true st else (st, none)) := by
      intro st
      split
      · exact hcurE st
      · exact extends_refl _ st none
    split
    · rename_i msg hmsg
      obtain ⟨x, hx, hp⟩ := hcur ((St.call (St.call ⟨[], []⟩ (Call.listSubs u.config.Namespace))
        (Call.delete (Obj.sub sub))).printf ("subscription " ++ q sub.Name ++ " deleted"))
      exact ⟨x, hx, hp⟩
    · rename_i hnone
      obtain ⟨x, hx, hp⟩ := hcur ((St.call (St.call ⟨[], []⟩
        (Call.listSubs u.config.Namespace)) (Call.delete (Obj.sub sub))).printf
          ("subscription " ++ q sub.Name ++ " deleted"))
      have h1 : Extends (fun c => c.isSubDelete = false ∧ c.isOGDelete = false ∧
          (∀ ns n, c = Call.get ns n → n = sub.CurrentCSV ∨ n = sub.InstalledCSV) ∧
          (u.DeleteCRDs = false → c.isCRDDelete = false))
          ((St.call (St.call ⟨[], []⟩
            (Call.listSubs u.config.Namespace)) (Call.delete (Obj.sub sub))).printf
              ("subscription " ++ q sub.Name ++ " deleted"))
          ((if (sub.CurrentCSV != sub.InstalledCSV) = true then
            deleteCSVandCRDs q u sub.CurrentCSV true ((St.call (St.call ⟨[], []⟩
              (Call.listSubs u.config.Namespace)) (Call.delete (Obj.sub sub))).printf
                ("subscription " ++ q sub.Name ++ " deleted"))
            else (((St.call (St.call ⟨[], []⟩
              (Call.listSubs u.config.Namespace)) (Call.delete (Obj.sub sub))).printf
                ("subscription " ++ q sub.Name ++ " deleted")), none)).1, none) := ⟨x, hx, hp⟩
      exact extends_trans h1 (hinsE _)

theorem RunVersions_unresolved (q : String → String) (u : UninstallOperator)
    (h : ∀ subs sub, u.config.Client.listSubs [] u.config.Namespace = .ok subs →
      subs.find? (fun s => u.Package == s.Package) ≠ some sub) :
    (RunVersions q u).1.calls = [Call.listSubs u.config.Namespace] ∧
      ∃ msg, (RunVersions q u).2 = some msg := by
  unfold RunVersions
  simp only
  split
  · exact ⟨rfl, _, rfl⟩
  · rename_i subs hsubs
    split
    · exact ⟨rfl, _, rfl⟩
    · rename_i sub hsub
      exact absurd hsub (h subs sub hsubs)

theorem Run_calls (q : String → String) (u : UninstallOperator) :
    ∃ gx, (Run q u).1.calls = (RunVersions q u).1.calls ++ gx ∧
      (∀ c ∈ gx, c.isSubDelete = false ∧ c.isGet = false ∧ c.isCRDDelete = false ∧
        c.isCSVDelete = false) ∧
      (∀ msg, (RunVersions q u).2 = some msg → gx = [] ∧ (Run q u).2 = some msg) := by
  unfold Run
  cases hv : RunVersions q u with
  | mk st r =>
    cases r with
    | some msg => exact ⟨[], by simp, by simp, fun m hm => ⟨rfl, by simpa using hm⟩⟩
    | none =>
      obtain ⟨gx, hx, hp⟩ := RunGroups_extends q u st
      exact ⟨gx, hx, hp, fun m hm => by simp at hm⟩

theorem Run_post (q : String → String) (u : UninstallOperator) :
    Post u.config.Client (toleratedGet u) (Run q u) := by
  have hv := RunVersions_post q u
  unfold Run
  cases hr : RunVersions q u with
  | mk st r =>
    rw [hr] at hv
    cases r with
    | some msg => exact hv
    | none => exact RunGroups_post q u _ st (hv.1 rfl)


/-! ## The claims about `UninstallOperator.Run` -/

/-- C2: when the listed subscriptions hold no item of the requested package (the empty
list included), `Run` returns the error `operator package <quoted name> not found`,
having issued the `List` of the subscriptions and nothing else: no `Delete` and no
`Get`. -/
theorem Run_package_not_found (q : String → String) (u : UninstallOperator)
    (subs : List Subscription)
    (hlist : u.config.Client.listSubs [] u.config.Namespace = .ok subs)
    (hno : ∀ s ∈ subs, s.Package ≠ u.Package) :
    Run q u = (⟨[Call.listSubs u.config.Namespace], []⟩,
      some ("operator package " ++ q u.Package ++ " not found")) ∧
    (∀ c ∈ (Run q u).1.calls, c.isDelete = false ∧ c.isGet = false) := by
  have hfind : subs.find? (fun s => u.Package == s.Package) = none := by
    rw [List.find?_eq_none]
    intro s hs h
    have h2 : u.Package = s.Package := by simpa using h
    exact hno s hs h2.symm
  have hrun : Run q u = (⟨[Call.listSubs u.config.Namespace], []⟩,
      some ("operator package " ++ q u.Package ++ " not found")) := by
    simp [Run, RunVersions, hlist, hfind, St.call]
  refine ⟨hrun, ?_⟩
  rw [hrun]
  intro c hc
  simp at hc
  subst hc
  exact ⟨rfl, rfl⟩

/-- Witness of C2: the cluster of the scenario holds no subscription of package `bar`. -/
theorem Run_package_not_found_witness :
    Run plainQuote { scenario none with Package := "bar" } =
      (⟨[Call.listSubs "operators"], []⟩,
        some ("operator package " ++ plainQuote "bar" ++ " not found")) ∧
    (∀ c ∈ (Run plainQuote { scenario none with Package := "bar" }).1.calls,
      c.isDelete = false ∧ c.isGet = false) :=
  Run_package_not_found plainQuote { scenario none with Package := "bar" } [fooSub] rfl
    (by decide)

/-- C8: when `DeleteCRDs` is false no `Delete` of a resource-definition is issued,
neither by `Run` nor by `deleteCSVandCRDs`, whatever the subscription and however many
owned declarations the version objects carry; the `Delete` calls of such a run are of
the subscription, of version objects and of group objects only. -/
theorem Run_no_crd_delete (q : String → String) (u : UninstallOperator)
    (hflag : u.DeleteCRDs = false) :
    (∀ c ∈ (Run q u).1.calls, c.isCRDDelete = false) ∧
    (∀ c ∈ (Run q u).1.calls, c.isDelete = true →
      c.isSubDelete = true ∨ c.isCSVDelete = true ∨ c.isOGDelete = true) ∧
    (∀ (csvName : String) (ignoreNotFound : Bool) (st : St),
      ∃ extra, (deleteCSVandCRDs q u csvName ignoreNotFound st).1.calls = st.calls ++ extra ∧
        ∀ c ∈ extra, c.isCRDDelete = false) := by
  have hall : ∀ c ∈ (Run q u).1.calls, c.isCRDDelete = false := by
    obtain ⟨gx, hx, hp, hstop⟩ := Run_calls q u
    rw [hx]
    intro c hc
    rcases List.mem_append.mp hc with hc | hc
    · by_cases hres : ∃ subs sub, u.config.Client.listSubs [] u.config.Namespace = .ok subs ∧
          subs.find? (fun s => u.Package == s.Package) = some sub
      · obtain ⟨subs, sub, hlist, hfind⟩ := hres
        obtain ⟨extra, hcalls, hextra⟩ := RunVersions_resolved_shape q u subs sub hlist hfind
        rw [hcalls] at hc
        rcases List.mem_cons.mp hc with rfl | hc
        · rfl
        · rcases List.mem_cons.mp hc with rfl | hc
          · rfl
          · exact (hextra c hc).2.2.2 hflag
      · have := (RunVersions_unresolved q u (fun subs sub h1 h2 => hres ⟨subs, sub, h1, h2⟩)).1
        rw [this] at hc
        simp at hc
        subst hc
        rfl
    · exact (hp c hc).2.2.1
  refine ⟨hall, ?_, ?_⟩
  · intro c hc hdel
    have := hall c hc
    cases c with
    | delete o => cases o <;> simp_all [Call.isCRDDelete, Call.isSubDelete, Call.isCSVDelete,
        Call.isOGDelete]
    | _ => simp [Call.isDelete] at hdel
  · intro csvName ignoreNotFound st
    obtain ⟨extra, hx, hp⟩ := deleteCSVandCRDs_extends q u csvName ignoreNotFound st
    exact ⟨extra, hx, fun c hc => (hp c hc).2.2.2 hflag⟩

/-- Witness of C8: the scenario with `DeleteCRDs` unset; `foo.v1` owns a
resource-definition and no `Delete` of it is issued. -/
theorem Run_no_crd_delete_witness :
    fooV1.Owned ≠ [] ∧
    ∀ c ∈ (Run plainQuote { scenario none with DeleteCRDs := false }).1.calls,
      c.isCRDDelete = false :=
  ⟨by decide,
    (Run_no_crd_delete plainQuote { scenario none with DeleteCRDs := false } rfl).1⟩

/-- C6: the first fatal error aborts the run.  If a call `c` of the run, issued after the
calls `pre` and followed by the calls `post`, is answered with an error `e` that is not
the tolerated not-found of the `Get` issued with `ignoreNotFound = true`, then no call
follows it (`post` is empty) and `Run` returns an error whose text ends in the text of
`e`.  In particular a `Get` of a version object that fails otherwise than by a tolerated
not-found is followed by no `Delete` at all. -/
theorem Run_first_fatal_error_aborts (q : String → String) (u : UninstallOperator)
    (pre post : List Call) (c : Call) (e : ClientErr)
    (hcalls : (Run q u).1.calls = pre ++ c :: post)
    (herr : u.config.Client.errOf pre c = some e)
    (hfatal : ¬ toleratedGet u c e) :
    post = [] ∧ ∃ p, (Run q u).2 = some (p ++ e.text) :=
  (Run_post q u).2 pre c post e hcalls herr hfatal

/-- Witness of C6: in the scenario the `Delete` of the unnamed version object is answered
with an error; it is the last call and `Run` returns its text. -/
theorem Run_first_fatal_error_aborts_witness :
    (Run plainQuote (scenario (some ⟨"name may not be empty", false⟩))).1.calls =
      [Call.listSubs "operators", Call.delete (Obj.sub fooSub), Call.get "operators" "foo.v2",
        Call.delete (Obj.csv ClusterServiceVersion.zero)] ∧
    ∃ p, (Run plainQuote (scenario (some ⟨"name may not be empty", false⟩))).2 =
      some (p ++ "name may not be empty") :=
  ⟨rfl, (Run_first_fatal_error_aborts plainQuote (scenario (some ⟨"name may not be empty", false⟩))
    [Call.listSubs "operators", Call.delete (Obj.sub fooSub), Call.get "operators" "foo.v2"]
    [] (Call.delete (Obj.csv ClusterServiceVersion.zero)) ⟨"name may not be empty", false⟩
    rfl rfl (fun h => by
      obtain ⟨_, _, _, _, _, _, hc⟩ := h
      cases hc)).2⟩


/-- C7: when the listed subscriptions hold an item of the requested package, the
subscription `Run` resolves is the first such item in list order: the list splits as
`pre ++ sub :: post` with `sub` of the package and no item of `pre` of the package.  The
second call of the run is the `Delete` of `sub`, it is the only `Delete` of a
subscription of the run, and every `Get` of the run is for `sub.CurrentCSV` or
`sub.InstalledCSV`, whatever the later items are. -/
theorem Run_first_matching_subscription (q : String → String) (u : UninstallOperator)
    (subs : List Subscription)
    (hlist : u.config.Client.listSubs [] u.config.Namespace = .ok subs)
    (hex : ∃ s ∈ subs, s.Package = u.Package) :
    ∃ pre sub post, subs = pre ++ sub :: post ∧ sub.Package = u.Package ∧
      (∀ s ∈ pre, s.Package ≠ u.Package) ∧
      (Run q u).1.calls.take 2 =
        [Call.listSubs u.config.Namespace, Call.delete (Obj.sub sub)] ∧
      (Run q u).1.calls.filter Call.isSubDelete = [Call.delete (Obj.sub sub)] ∧
      (∀ ns n, Call.get ns n ∈ (Run q u).1.calls →
        n = sub.CurrentCSV ∨ n = sub.InstalledCSV) := by
  obtain ⟨s0, hs0, hp0⟩ := hex
  have hsome : (subs.find? (fun s => u.Package == s.Package)).isSome := by
    rw [List.find?_isSome]
    exact ⟨s0, hs0, by simp [hp0]⟩
  obtain ⟨sub, hfind⟩ := Option.isSome_iff_exists.mp hsome
  obtain ⟨hpsub, pre, post, hsplit, hpre⟩ := List.find?_eq_some.mp hfind
  obtain ⟨extra, hcalls, hextra⟩ := RunVersions_resolved_shape q u subs sub hlist hfind
  obtain ⟨gx, hx, hp, _⟩ := Run_calls q u
  have hrun : (Run q u).1.calls =
      Call.listSubs u.config.Namespace :: Call.delete (Obj.sub sub) :: (extra ++ gx) := by
    rw [hx, hcalls]; rfl
  have hrest : ∀ c ∈ extra ++ gx, c.isSubDelete = false ∧
      ∀ ns n, c = Call.get ns n → n = sub.CurrentCSV ∨ n = sub.InstalledCSV := by
    intro c hc
    rcases List.mem_append.mp hc with hc | hc
    · exact ⟨(hextra c hc).1, (hextra c hc).2.2.1⟩
    · refine ⟨(hp c hc).1, ?_⟩
      intro ns n h
      have := (hp c hc).2.1
      rw [h] at this
      simp [Call.isGet] at this
  refine ⟨pre, sub, post, hsplit, ?_, ?_, ?_, ?_, ?_⟩
  · have : u.Package = sub.Package := by simpa using hpsub
    exact this.symm
  · intro s hs h
    have := hpre s hs
    simp [h] at this
  · rw [hrun]; rfl
  · rw [hrun]
    have hnil : (extra ++ gx).filter Call.isSubDelete = [] := by
      rw [List.filter_eq_nil_iff]
      intro c hc
      simp [(hrest c hc).1]
    simp [List.filter_cons, Call.isSubDelete, hnil]
  · intro ns n hmem
    rw [hrun] at hmem
    rcases List.mem_cons.mp hmem with h | hmem
    · cases h
    · rcases List.mem_cons.mp hmem with h | hmem
      · cases h
      · exact (hrest _ hmem).2 ns n rfl


theorem RunVersions_stopped (q : String → String) (u : UninstallOperator)
    (subs : List Subscription) (sub : Subscription)
    (hlist : u.config.Client.listSubs [] u.config.Namespace = .ok subs)
    (hfind : subs.find? (fun s => u.Package == s.Package) = some sub)
    (msg : String) (h : (RunVersions q u).2 = some msg) :
    Stopped u.config.Client (RunVersions q u).1.calls := by
  simp only [RunVersions, hlist, hfind] at h ⊢
  split
  · rename_i err herr
    exact ⟨_, _, err, rfl, by simpa [Client.errOf] using herr⟩
  · rename_i hdel
    simp only [hdel] at h
    split
    · rename_i m hm
      by_cases hne : (sub.CurrentCSV != sub.InstalledCSV) = true
      · simp only [hne, if_true] at hm ⊢
        exact deleteCSVandCRDs_stopped q u _ _ _ m hm
      · simp [hne] at hm
    · rename_i hnone
      simp only [hnone] at h
      exact deleteCSVandCRDs_stopped q u _ _ _ msg h

theorem not_stopped_of_all_succeed (cl : Client) (L : List Call)
    (hall : ∀ pre c post, L = pre ++ c :: post → cl.errOf pre c = none) : ¬ Stopped cl L := by
  rintro ⟨pre, c, e, hL, he⟩
  rw [hall pre c [] hL] at he
  cases he

/-- C9: for a resolved subscription with `CurrentCSV = InstalledCSV`, a run in which every
client call succeeds issues exactly one `Get`, for the name `InstalledCSV`, and exactly
one `Delete` of a version object, the one that `Get` fetched.  That `Get` is made with
`ignoreNotFound = false`: whatever error it is answered with, not-found included, the run
stops there and returns it. -/
theorem Run_steady_state (q : String → String) (u : UninstallOperator)
    (subs : List Subscription) (sub : Subscription)
    (hlist : u.config.Client.listSubs [] u.config.Namespace = .ok subs)
    (hfind : subs.find? (fun s => u.Package == s.Package) = some sub)
    (heq : sub.CurrentCSV = sub.InstalledCSV) :
    ((∀ pre c post, (Run q u).1.calls = pre ++ c :: post →
        u.config.Client.errOf pre c = none) →
      (Run q u).1.calls.filter Call.isGet = [Call.get u.config.Namespace sub.InstalledCSV] ∧
      (Run q u).1.calls.filter Call.isCSVDelete =
        [Call.delete (Obj.csv (u.config.Client.get
          [Call.listSubs u.config.Namespace, Call.delete (Obj.sub sub)]
          u.config.Namespace sub.InstalledCSV).1)]) ∧
    (u.config.Client.delete [Call.listSubs u.config.Namespace] (Obj.sub sub) = none →
      ∀ e, (u.config.Client.get [Call.listSubs u.config.Namespace, Call.delete (Obj.sub sub)]
          u.config.Namespace sub.InstalledCSV).2 = some e →
        Run q u =
          (⟨[Call.listSubs u.config.Namespace, Call.delete (Obj.sub sub),
              Call.get u.config.Namespace sub.InstalledCSV],
            ["subscription " ++ q sub.Name ++ " deleted"]⟩,
           some ("get clusterserviceversion " ++ q sub.InstalledCSV ++ ": " ++ e.text))) := by
  have hbne : (sub.CurrentCSV != sub.InstalledCSV) = false := by simp [heq]
  constructor
  · intro hall
    obtain ⟨gx, hx, hp, hstop⟩ := Run_calls q u
    have hvnone : (RunVersions q u).2 = none := by
      cases hv : (RunVersions q u).2 with
      | none => rfl
      | some msg =>
        have hs := RunVersions_stopped q u subs sub hlist hfind msg hv
        have hgx := (hstop msg hv).1
        rw [hgx, List.append_nil] at hx
        rw [← hx] at hs
        exact absurd hs (not_stopped_of_all_succeed _ _ hall)
    have hdel : u.config.Client.delete [Call.listSubs u.config.Namespace] (Obj.sub sub) =
        none := by
      cases hd : u.config.Client.delete [Call.listSubs u.config.Namespace] (Obj.sub sub) with
      | none => rfl
      | some err =>
        simp [RunVersions, hlist, hfind, St.call, hd] at hvnone
    have hrv : RunVersions q u = deleteCSVandCRDs q u sub.InstalledCSV false
        ⟨[Call.listSubs u.config.Namespace, Call.delete (Obj.sub sub)],
          ["subscription " ++ q sub.Name ++ " deleted"]⟩ := by
      simp [RunVersions, hlist, hfind, St.call, St.printf, hdel, heq]
    obtain ⟨crds, tail, hcalls, hcrds, _, _, htail⟩ := deleteCSVandCRDs_shape q u
      sub.InstalledCSV false ⟨[Call.listSubs u.config.Namespace, Call.delete (Obj.sub sub)],
          ["subscription " ++ q sub.Name ++ " deleted"]⟩
    rw [← hrv] at hcalls htail
    have ht := htail hvnone
    rw [ht] at hcalls
    rw [hx, hcalls]
    have hg1 : crds.filter Call.isGet = [] := by
      rw [List.filter_eq_nil_iff]
      intro c hc
      have := hcrds c hc
      cases c with
      | delete o => simp [Call.isGet]
      | _ => simp [Call.isCRDDelete] at this
    have hg2 : gx.filter Call.isGet = [] := by
      rw [List.filter_eq_nil_iff]
      intro c hc
      simp [(hp c hc).2.1]
    have hd1 : crds.filter Call.isCSVDelete = [] := by
      rw [List.filter_eq_nil_iff]
      intro c hc
      have := hcrds c hc
      cases c with
      | delete o => cases o <;> simp_all [Call.isCRDDelete, Call.isCSVDelete]
      | _ => simp [Call.isCRDDelete] at this
    have hd2 : gx.filter Call.isCSVDelete = [] := by
      rw [List.filter_eq_nil_iff]
      intro c hc
      simp [(hp c hc).2.2.2]
    constructor
    · simp [List.filter_cons, Call.isGet, hg1, hg2]
    · simp [List.filter_cons, Call.isCSVDelete, hd1, hd2]
  · intro hdel e he
    have hrv : RunVersions q u = deleteCSVandCRDs q u sub.InstalledCSV false
        ⟨[Call.listSubs u.config.Namespace, Call.delete (Obj.sub sub)],
          ["subscription " ++ q sub.Name ++ " deleted"]⟩ := by
      simp [RunVersions, hlist, hfind, St.call, St.printf, hdel, heq]
    rw [deleteCSVandCRDs_strict q u sub.InstalledCSV _ e he] at hrv
    simp [Run, hrv, St.call]


theorem RunVersions_no_og (q : String → String) (u : UninstallOperator) :
    ∀ c ∈ (RunVersions q u).1.calls, c.isOGDelete = false := by
  intro c hc
  by_cases hres : ∃ subs sub, u.config.Client.listSubs [] u.config.Namespace = .ok subs ∧
      subs.find? (fun s => u.Package == s.Package) = some sub
  · obtain ⟨subs, sub, hlist, hfind⟩ := hres
    obtain ⟨extra, hcalls, hextra⟩ := RunVersions_resolved_shape q u subs sub hlist hfind
    rw [hcalls] at hc
    rcases List.mem_cons.mp hc with rfl | hc
    · rfl
    · rcases List.mem_cons.mp hc with rfl | hc
      · rfl
      · exact (hextra c hc).2.1
  · have := (RunVersions_unresolved q u (fun subs sub h1 h2 => hres ⟨subs, sub, h1, h2⟩)).1
    rw [this] at hc
    simp at hc
    subst hc
    rfl

/-- C5: group clean-up.  Let the version phase of a run end without error in state `st`,
and let the calls of the clean-up succeed: the list of version objects answers `csvs`
and, when that list is empty, the list of group objects answers `ogs` and each `Delete`
of a group object succeeds.  Then `Run` returns success, and the `Delete` calls of group
objects it issues are: one per item of `ogs`, in list order, when `DeleteOperatorGroup`
is true and `csvs` is empty, and none at all otherwise.  So a group `Delete` is issued
only if the option is true and no version object remains. -/
theorem Run_group_cleanup (q : String → String) (u : UninstallOperator) (st : St)
    (csvs : List ClusterServiceVersion) (ogs : List OperatorGroup)
    (hver : RunVersions q u = (st, none))
    (hcsvs : u.DeleteOperatorGroup = true →
      u.config.Client.listCSVs st.calls u.config.Namespace = .ok csvs)
    (hogs : u.DeleteOperatorGroup = true → csvs = [] →
      u.config.Client.listOGs (st.calls ++ [Call.listCSVs u.config.Namespace])
        u.config.Namespace = .ok ogs)
    (hdel : u.DeleteOperatorGroup = true → csvs = [] → ∀ j og, ogs[j]? = some og →
      u.config.Client.delete
        (st.calls ++ [Call.listCSVs u.config.Namespace] ++ [Call.listOGs u.config.Namespace] ++
          (ogs.take j).map (fun o => Call.delete (Obj.og o))) (Obj.og og) = none) :
    (Run q u).2 = none ∧
    (Run q u).1.calls = st.calls ++
      (if u.DeleteOperatorGroup = true then
        Call.listCSVs u.config.Namespace ::
          (if csvs = [] then
            Call.listOGs u.config.Namespace :: ogs.map (fun o => Call.delete (Obj.og o))
          else [])
      else []) ∧
    (Run q u).1.calls.filter Call.isOGDelete =
      (if u.DeleteOperatorGroup = true ∧ csvs = [] then
        ogs.map (fun o => Call.delete (Obj.og o)) else []) ∧
    ((∃ c ∈ (Run q u).1.calls, c.isOGDelete = true) →
      u.DeleteOperatorGroup = true ∧ csvs = []) := by
  have hrun : Run q u = RunGroups q u st := by simp [Run, hver]
  have hst : st.calls.filter Call.isOGDelete = [] := by
    rw [List.filter_eq_nil_iff]
    intro c hc
    have := RunVersions_no_og q u c (by rw [hver]; exact hc)
    simp [this]
  have hres : (Run q u).2 = none ∧ (Run q u).1.calls = st.calls ++
      (if u.DeleteOperatorGroup = true then
        Call.listCSVs u.config.Namespace ::
          (if csvs = [] then
            Call.listOGs u.config.Namespace :: ogs.map (fun o => Call.delete (Obj.og o))
          else [])
      else []) := by
    rw [hrun]
    by_cases hflag : u.DeleteOperatorGroup = true
    · by_cases hempty : csvs = []
      · have hloop := deleteOperatorGroups_ok q u ogs
          ((st.call (Call.listCSVs u.config.Namespace)).call (Call.listOGs u.config.Namespace))
          (fun j og hj => by simpa [St.call] using hdel hflag hempty j og hj)
        have hogs2 := hogs hflag hempty
        subst hempty
        simp [RunGroups, hflag, hcsvs hflag, St.call, hogs2]
        simp [St.call] at hloop
        rw [hloop]
        simp
      · have hlen : csvs.length ≠ 0 := by
          intro h
          exact hempty (List.length_eq_zero.mp h)
        simp [RunGroups, hflag, hcsvs hflag, St.call, hempty, hlen]
    · simp [RunGroups, hflag]
  refine ⟨hres.1, hres.2, ?_, ?_⟩
  · rw [hres.2]
    by_cases hflag : u.DeleteOperatorGroup = true
    · by_cases hempty : csvs = []
      · simp [hflag, hempty, hst, List.filter_cons, Call.isOGDelete]
      · simp [hflag, hempty, hst, List.filter_cons, Call.isOGDelete]
    · simp [hflag, hst]
  · rintro ⟨c, hc, hog⟩
    rw [hres.2] at hc
    rcases List.mem_append.mp hc with hc | hc
    · have := RunVersions_no_og q u c (by rw [hver]; exact hc)
      rw [this] at hog
      cases hog
    · by_cases hflag : u.DeleteOperatorGroup = true
      · by_cases hempty : csvs = []
        · exact ⟨hflag, hempty⟩
        · simp [hflag, hempty] at hc
          subst hc
          simp [Call.isOGDelete] at hog
      · simp [hflag] at hc


/-- Witness of C7: of the two subscriptions of package `foo`, the first listed is the one
deleted and read. -/
theorem Run_first_matching_subscription_witness :
    (Run plainQuote ambiguous).1.calls.filter Call.isSubDelete =
      [Call.delete (Obj.sub fooSub)] ∧
    ∃ pre sub post, [barSub, fooSub, fooSubLate] = pre ++ sub :: post ∧
      sub.Package = ambiguous.Package ∧
      (∀ s ∈ pre, s.Package ≠ ambiguous.Package) ∧
      (Run plainQuote ambiguous).1.calls.take 2 =
        [Call.listSubs ambiguous.config.Namespace, Call.delete (Obj.sub sub)] ∧
      (Run plainQuote ambiguous).1.calls.filter Call.isSubDelete =
        [Call.delete (Obj.sub sub)] ∧
      (∀ ns n, Call.get ns n ∈ (Run plainQuote ambiguous).1.calls →
        n = sub.CurrentCSV ∨ n = sub.InstalledCSV) :=
  ⟨rfl, Run_first_matching_subscription plainQuote ambiguous [barSub, fooSub, fooSubLate] rfl
    ⟨fooSubLate, by decide, rfl⟩⟩

/-- Witness of C9: the steady-state run on the cluster of the scenario. -/
theorem Run_steady_state_witness :
    (Run plainQuote steady).1.calls.filter Call.isGet = [Call.get "operators" "foo.v1"] ∧
    (Run plainQuote steady).1.calls.filter Call.isCSVDelete =
      [Call.delete (Obj.csv fooV1)] :=
  (Run_steady_state plainQuote steady [steadySub] steadySub rfl rfl rfl).1 (by
    intro pre c post h
    have hc : c ∈ (Run plainQuote steady).1.calls := by rw [h]; simp
    have hcalls : (Run plainQuote steady).1.calls =
        [Call.listSubs "operators", Call.delete (Obj.sub steadySub),
          Call.get "operators" "foo.v1", Call.delete (Obj.crd "widgets.example.com"),
          Call.delete (Obj.csv fooV1), Call.listCSVs "operators", Call.listOGs "operators",
          Call.delete (Obj.og og1)] := rfl
    rw [hcalls] at hc
    simp only [List.mem_cons, List.mem_singleton, List.not_mem_nil, or_false] at hc
    rcases hc with rfl | rfl | rfl | rfl | rfl | rfl | rfl | rfl <;> rfl)

/-- Witness of C5: in the scenario no version object remains and the one group object is
deleted. -/
theorem Run_group_cleanup_witness :
    (Run plainQuote (scenario none)).2 = none ∧
    (Run plainQuote (scenario none)).1.calls.filter Call.isOGDelete =
      [Call.delete (Obj.og og1)] :=
  have h := Run_group_cleanup plainQuote (scenario none) (RunVersions plainQuote (scenario none)).1
    [] [og1] rfl (fun _ => rfl) (fun _ _ => rfl) (fun _ _ _ _ _ => rfl)
  ⟨h.1, h.2.2.1⟩


/-- C4: the cascade of `deleteCSVandCRDs`.  With `DeleteCRDs` true and a `Get` that
succeeds with the version object `csv`: if the `Delete` of the `i`-th owned
resource-definition fails after the earlier ones succeeded, the routine returns the
error of that `Delete`, having issued after the `Get` the `Delete` calls of the owned
entries up to the `i`-th, in declaration order, and no other call, so none for the later
entries and none for the version object; if every such `Delete` succeeds, the calls
issued are the `Get`, one `Delete` per owned entry in declaration order, and then the
`Delete` of the version object. -/
theorem deleteCSVandCRDs_cascade (q : String → String) (u : UninstallOperator)
    (csvName : String) (ignoreNotFound : Bool) (st : St) (csv : ClusterServiceVersion)
    (hflag : u.DeleteCRDs = true)
    (hget : u.config.Client.get st.calls u.config.Namespace csvName = (csv, none)) :
    (∀ i name e, csv.Owned[i]? = some name →
      (∀ j nm, j < i → csv.Owned[j]? = some nm →
        u.config.Client.delete (st.calls ++ [Call.get u.config.Namespace csvName] ++
          (csv.Owned.take j).map (fun n => Call.delete (Obj.crd n))) (Obj.crd nm) = none) →
      u.config.Client.delete (st.calls ++ [Call.get u.config.Namespace csvName] ++
          (csv.Owned.take i).map (fun n => Call.delete (Obj.crd n))) (Obj.crd name) = some e →
      deleteCSVandCRDs q u csvName ignoreNotFound st =
        (⟨st.calls ++ [Call.get u.config.Namespace csvName] ++
            (csv.Owned.take (i + 1)).map (fun n => Call.delete (Obj.crd n)),
          st.trace ++ (csv.Owned.take i).map (fun n => "crd " ++ q n ++ " deleted")⟩,
         some ("delete crd " ++ q name ++ ": " ++ e.text)) ∧
      ∀ c ∈ (deleteCSVandCRDs q u csvName ignoreNotFound st).1.calls.drop st.calls.length,
        c.isCSVDelete = false) ∧
    ((∀ j nm, csv.Owned[j]? = some nm →
        u.config.Client.delete (st.calls ++ [Call.get u.config.Namespace csvName] ++
          (csv.Owned.take j).map (fun n => Call.delete (Obj.crd n))) (Obj.crd nm) = none) →
      (deleteCSVandCRDs q u csvName ignoreNotFound st).1.calls =
        st.calls ++ [Call.get u.config.Namespace csvName] ++
          csv.Owned.map (fun n => Call.delete (Obj.crd n)) ++ [Call.delete (Obj.csv csv)] ∧
      (u.config.Client.delete (st.calls ++ [Call.get u.config.Namespace csvName] ++
          csv.Owned.map (fun n => Call.delete (Obj.crd n))) (Obj.csv csv) = none →
        deleteCSVandCRDs q u csvName ignoreNotFound st =
          (⟨st.calls ++ [Call.get u.config.Namespace csvName] ++
              csv.Owned.map (fun n => Call.delete (Obj.crd n)) ++ [Call.delete (Obj.csv csv)],
            st.trace ++ csv.Owned.map (fun n => "crd " ++ q n ++ " deleted") ++
              ["csv " ++ q csvName ++ " deleted"]⟩, none))) := by
  constructor
  · intro i name e hi hok hfail
    have hloop := deleteOwnedCRDs_fail q u csv.Owned
      (st.call (Call.get u.config.Namespace csvName)) i name e hi hok hfail
    have hres : deleteCSVandCRDs q u csvName ignoreNotFound st =
        (⟨st.calls ++ [Call.get u.config.Namespace csvName] ++
            (csv.Owned.take (i + 1)).map (fun n => Call.delete (Obj.crd n)),
          st.trace ++ (csv.Owned.take i).map (fun n => "crd " ++ q n ++ " deleted")⟩,
         some ("delete crd " ++ q name ++ ": " ++ e.text)) := by
      simp only [deleteCSVandCRDs, hget, hflag, if_true, hloop]
      rfl
    refine ⟨hres, ?_⟩
    rw [hres]
    intro c hc
    simp only [List.append_assoc, List.drop_left] at hc
    rcases List.mem_append.mp hc with hc | hc
    · rw [List.mem_singleton] at hc
      subst hc
      rfl
    · obtain ⟨n, _, rfl⟩ := List.mem_map.mp hc
      rfl
  · intro hok
    have hloop := deleteOwnedCRDs_ok q u csv.Owned
      (st.call (Call.get u.config.Namespace csvName)) hok
    constructor
    · simp only [deleteCSVandCRDs, hget, hflag, if_true, hloop]
      split <;> rfl
    · intro hdel
      simp only [deleteCSVandCRDs, hget, hflag, if_true, hloop]
      simp only [St.call] at hdel ⊢
      rw [hdel]
      rfl

/-- Witness of C4: the cascade on `foo.v1` in the scenario. -/
theorem deleteCSVandCRDs_cascade_witness :
    deleteCSVandCRDs plainQuote (scenario none) "foo.v1" false ⟨[], []⟩ =
      (⟨[Call.get "operators" "foo.v1", Call.delete (Obj.crd "widgets.example.com"),
          Call.delete (Obj.csv fooV1)],
        ["crd " ++ plainQuote "widgets.example.com" ++ " deleted",
          "csv " ++ plainQuote "foo.v1" ++ " deleted"]⟩, none) :=
  ((deleteCSVandCRDs_cascade plainQuote (scenario none) "foo.v1" false ⟨[], []⟩ fooV1 rfl rfl).2
    (fun _ _ _ => rfl)).2 rfl

/-- C1 on the code: in the scenario the `Get` of `foo.v2` is answered not-found and
tolerated, yet `deleteCSVandCRDs` goes on to issue a `Delete` of the unnamed version
object it holds.  When that `Delete` succeeds the run succeeds and traces `foo.v2` as
deleted; when it fails the run fails with the error of that `Delete`. -/
theorem Run_tolerated_not_found_falls_through (q : String → String) :
    Run q (scenario none) =
      (⟨[Call.listSubs "operators", Call.delete (Obj.sub fooSub),
          Call.get "operators" "foo.v2", Call.delete (Obj.csv ClusterServiceVersion.zero),
          Call.get "operators" "foo.v1", Call.delete (Obj.crd "widgets.example.com"),
          Call.delete (Obj.csv fooV1), Call.listCSVs "operators", Call.listOGs "operators",
          Call.delete (Obj.og og1)],
        ["subscription " ++ q "foo" ++ " deleted", "csv " ++ q "foo.v2" ++ " deleted",
          "crd " ++ q "widgets.example.com" ++ " deleted", "csv " ++ q "foo.v1" ++ " deleted",
          "operatorgroup " ++ q "og1" ++ " deleted"]⟩, none) ∧
    ∀ e, Run q (scenario (some e)) =
      (⟨[Call.listSubs "operators", Call.delete (Obj.sub fooSub),
          Call.get "operators" "foo.v2", Call.delete (Obj.csv ClusterServiceVersion.zero)],
        ["subscription " ++ q "foo" ++ " deleted"]⟩,
       some ("delete csv " ++ q "foo.v2" ++ ": " ++ e.text)) :=
  ⟨rfl, fun _ => rfl⟩

/-- Counterexample to C3: in the scenario, whatever the rendering of `%q` and whatever
the answer to the `Delete` of the unnamed version object, the calls of `Run` are not the
nine of the claim (the `List` of subscriptions and the eight that follow), and a
successful run has not written seven trace lines. -/
theorem Run_scenario_counterexample :
    (¬ ∃ (q : String → String) (r : Option ClientErr),
      (Run q (scenario r)).1.calls =
        [Call.listSubs "operators", Call.delete (Obj.sub fooSub),
          Call.get "operators" "foo.v2", Call.get "operators" "foo.v1",
          Call.delete (Obj.crd "widgets.example.com"), Call.delete (Obj.csv fooV1),
          Call.listCSVs "operators", Call.listOGs "operators", Call.delete (Obj.og og1)]) ∧
    (¬ ∃ (q : String → String) (r : Option ClientErr),
      (Run q (scenario r)).2 = none ∧ (Run q (scenario r)).1.trace.length = 7) := by
  constructor
  · rintro ⟨q, r, h⟩
    cases r with
    | none =>
      have h10 : (Run q (scenario none)).1.calls.length = 10 := rfl
      rw [h] at h10
      exact absurd h10 (by decide)
    | some e =>
      have h4 : (Run q (scenario (some e))).1.calls.length = 4 := rfl
      rw [h] at h4
      exact absurd h4 (by decide)
  · rintro ⟨q, r, hok, h⟩
    cases r with
    | none =>
      have h5 : (Run q (scenario none)).1.trace.length = 5 := rfl
      rw [h] at h5
      exact absurd h5 (by decide)
    | some e =>
      have h1 : (Run q (scenario (some e))).1.trace.length = 1 := rfl
      rw [h] at h1
      exact absurd h1 (by decide)

/-- C3 as amended: in the scenario, whenever `Run` returns success, the calls it issued,
leaving aside any `Delete` of the unnamed version object, are in order: list
subscriptions; delete subscription; get `foo.v2`; get `foo.v1`; delete
`widgets.example.com`; delete `foo.v1`; list version objects; list groups; delete
`og1`.  It has written one trace line per `Delete` issued, and four of those `Delete`
calls are of named objects. -/
theorem Run_scenario (q : String → String) (r : Option ClientErr)
    (hok : (Run q (scenario r)).2 = none) :
    (Run q (scenario r)).1.calls.filter
        (fun c => c != Call.delete (Obj.csv ClusterServiceVersion.zero)) =
      [Call.listSubs "operators", Call.delete (Obj.sub fooSub),
        Call.get "operators" "foo.v2", Call.get "operators" "foo.v1",
        Call.delete (Obj.crd "widgets.example.com"), Call.delete (Obj.csv fooV1),
        Call.listCSVs "operators", Call.listOGs "operators", Call.delete (Obj.og og1)] ∧
    (Run q (scenario r)).1.trace.length =
      ((Run q (scenario r)).1.calls.filter Call.isDelete).length ∧
    ((Run q (scenario r)).1.calls.filter
      (fun c => c.isDelete && c != Call.delete (Obj.csv ClusterServiceVersion.zero))).length =
      4 := by
  cases r with
  | none => exact ⟨rfl, rfl, rfl⟩
  | some e =>
    have hfail : (Run q (scenario (some e))).2 =
        some ("delete csv " ++ q "foo.v2" ++ ": " ++ e.text) := rfl
    rw [hfail] at hok
    cases hok

/-- Witness of the amended C3: the scenario in which the `Delete` of the unnamed version
object succeeds. -/
theorem Run_scenario_witness :
    (Run plainQuote (scenario none)).2 = none ∧
    (Run plainQuote (scenario none)).1.calls.filter
        (fun c => c != Call.delete (Obj.csv ClusterServiceVersion.zero)) =
      [Call.listSubs "operators", Call.delete (Obj.sub fooSub),
        Call.get "operators" "foo.v2", Call.get "operators" "foo.v1",
        Call.delete (Obj.crd "widgets.example.com"), Call.delete (Obj.csv fooV1),
        Call.listCSVs "operators", Call.listOGs "operators", Call.delete (Obj.og og1)] :=
  ⟨rfl, (Run_scenario plainQuote none rfl).1⟩

end KubectlOperator
